import Mathlib

/-!
Verification development for `ethereumjs-remote` (src/ethereum-remote.js).

The library assembles, signs and broadcasts Ethereum contract transactions:
`sendTransaction` / `call` validate their params with Joi, look the target
function up in the ABI, encode the call payload, resolve nonce / gas price /
gas limit from a remote node, hex-encode all numeric fields via `web3.toHex`,
sign and RLP-serialize via `ethereumjs-tx`, and broadcast.

The embedding below models:
  * `web3.toHex` (number → `0x`-prefixed hex string) as `web3toHex`;
  * Node's `Buffer.from(s, 'hex')` (greedy pairwise decoding, stopping at the
    first invalid character, dropping a lone trailing digit) as `hexPairDecode`;
  * `ethereumjs-util` field ingestion (`toBuffer` + `stripZeros` for the
    `allowLess` numeric fields of `ethereumjs-tx`) as `toBufferStr` /
    `stripZeros` / `fieldBytesI`;
  * the RLP wire codec used by `ethereumjs-tx` (`rlpEncodeList` et al.);
  * the assembly pipeline `createSignedRawTransaction`, the wrappers
    `sendTransaction` / `call`, and the Joi validation gates;
  * the external capabilities (ABI encoder, keccak/secp256k1, remote node)
    as explicit structures the pipeline is parametric in, since the source
    consumes them as opaque libraries.
-/

namespace EthereumRemote

/-! ### Bytes and big-endian numbers -/

/-- Big-endian value of a byte string (most significant byte first). -/
def bytesToNat (bs : List Nat) : Nat := bs.foldl (fun acc b => acc * 256 + b) 0

/-- Fuel-indexed worker for `specMinBe` (structural recursion so that the
kernel can evaluate it). -/
def specMinBeGo : Nat → Nat → List Nat
  | _, 0 => []
  | 0, _ + 1 => []
  | fuel + 1, n + 1 => specMinBeGo fuel ((n + 1) / 256) ++ [(n + 1) % 256]

/-- The spec's "minimal-width big-endian encoding": base-256 digits, most
significant first, no leading zero byte, and the empty byte string for 0. -/
def specMinBe (n : Nat) : List Nat := specMinBeGo n n

/-! ### Hex strings: `Number.prototype.toString(16)`, `web3.toHex`,
`Buffer.from(·, 'hex')`, `ethereumjs-util.toBuffer` / `stripZeros` -/

/-- Lowercase hex digit character, as produced by JS `toString(16)`. -/
def hexDigitChar (d : Nat) : Char :=
  if d < 10 then Char.ofNat (48 + d) else Char.ofNat (87 + d)

/-- Value of a hex digit character; accepts `0-9`, `a-f`, `A-F` like Node's
hex decoder. -/
def hexVal (c : Char) : Option Nat :=
  if 48 ≤ c.toNat ∧ c.toNat ≤ 57 then some (c.toNat - 48)
  else if 97 ≤ c.toNat ∧ c.toNat ≤ 102 then some (c.toNat - 87)
  else if 65 ≤ c.toNat ∧ c.toNat ≤ 70 then some (c.toNat - 55)
  else none

/-- Fuel-indexed worker for `hexDigits`. -/
def hexDigitsGo : Nat → Nat → List Char
  | 0, n => [hexDigitChar n]
  | fuel + 1, n =>
    if n < 16 then [hexDigitChar n]
    else hexDigitsGo fuel (n / 16) ++ [hexDigitChar (n % 16)]

/-- Hex digits of a natural number, most significant first; `['0']` for 0.
This is JS `n.toString(16)` (also BigNumber `toString(16)` for nonnegative
values, as used by `web3.fromDecimal`). -/
def hexDigits (n : Nat) : List Char := hexDigitsGo n n

/-- `ethereumjs-util.padToEven`: prepend `'0'` when the length is odd. -/
def padToEvenChars (cs : List Char) : List Char :=
  if cs.length % 2 = 1 then '0' :: cs else cs

/-- Node's `Buffer.from(string, 'hex')`: decode two characters at a time,
stop at the first invalid character, drop a lone trailing digit. -/
def hexPairDecode : List Char → List Nat
  | c1 :: c2 :: rest =>
    match hexVal c1, hexVal c2 with
    | some h, some l => (16 * h + l) :: hexPairDecode rest
    | _, _ => []
  | _ => []

/-- UTF-8 bytes of a string (Node `Buffer.from(string)` default encoding). -/
def utf8Bytes (s : String) : List Nat := s.toUTF8.toList.map (fun b => b.toNat)

/-- `ethereumjs-util.toBuffer` on a string: hex-decode a `0x`-prefixed string
(after `padToEven`), otherwise take the UTF-8 bytes. -/
def toBufferStr (s : String) : List Nat :=
  match s.data with
  | '0' :: 'x' :: rest => hexPairDecode (padToEvenChars rest)
  | _ => utf8Bytes s

/-- `ethereumjs-util.stripZeros` (a.k.a. `unpad`): drop leading zero bytes,
applied by `ethereumjs-tx` to every `allowLess` field (nonce, gasPrice,
gasLimit, value, r, s). -/
def stripZeros : List Nat → List Nat
  | [] => []
  | 0 :: rest => stripZeros rest
  | (b + 1) :: rest => (b + 1) :: rest

/-- `web3.toHex` on an integer (`web3.fromDecimal`): `'0x' + n.toString(16)`,
with a leading `-` for negative values. -/
def web3toHex (i : Int) : String :=
  if i < 0 then String.mk ('-' :: '0' :: 'x' :: hexDigits i.natAbs)
  else String.mk ('0' :: 'x' :: hexDigits i.toNat)

/-- The byte string a numeric transaction field contributes to the codec:
`web3.toHex` in `sign_and_serialize` (src/ethereum-remote.js lines 202-206),
then `ethereumjs-tx` field ingestion (`toBuffer` + `stripZeros`). -/
def fieldBytesI (i : Int) : List Nat := stripZeros (toBufferStr (web3toHex i))

/-- `fieldBytesI` on a natural number (nonce, gasPrice, estimated gas). -/
def fieldBytesN (n : Nat) : List Nat := fieldBytesI (Int.ofNat n)

/-- Two lowercase hex characters of one byte (`Buffer.toString('hex')`). -/
def byteToHexChars (b : Nat) : List Char := [hexDigitChar (b / 16), hexDigitChar (b % 16)]

/-- `'0x' + buf.toString('hex')` as used for the serialized transaction. -/
def bytesToHexString (bs : List Nat) : String :=
  String.mk ('0' :: 'x' :: (bs.map byteToHexChars).flatten)

/-! ### The RLP codec used by `ethereumjs-tx` (`rlp.encode` on a flat list
of byte strings) -/

/-- RLP encoding of one byte string. -/
def rlpEncodeBytes (b : List Nat) : List Nat :=
  match b with
  | [x] => if x < 128 then [x] else [128 + 1, x]
  | _ =>
    if b.length < 56 then (128 + b.length) :: b
    else (183 + (specMinBe b.length).length) :: (specMinBe b.length ++ b)

/-- RLP encoding of a flat list of byte strings (the shape of a serialized
transaction: `[nonce, gasPrice, gasLimit, to, value, data, v, r, s]`). -/
def rlpEncodeList (items : List (List Nat)) : List Nat :=
  let payload := (items.map rlpEncodeBytes).flatten
  if payload.length < 56 then (192 + payload.length) :: payload
  else (247 + (specMinBe payload.length).length) :: (specMinBe payload.length ++ payload)

/-- RLP decoding of one byte-string item; returns the item and the rest. -/
def rlpDecodeItem (bs : List Nat) : Option (List Nat × List Nat) :=
  match bs with
  | [] => none
  | b :: rest =>
    if b < 128 then some ([b], rest)
    else if b < 184 then
      let len := b - 128
      if rest.length < len then none
      else some (rest.take len, rest.drop len)
    else if b < 192 then
      let ll := b - 183
      if rest.length < ll then none
      else
        let len := bytesToNat (rest.take ll)
        let rest2 := rest.drop ll
        if rest2.length < len then none
        else some (rest2.take len, rest2.drop len)
    else none

/-- Decode a sequence of byte-string items, consuming the whole input. -/
def rlpDecodeItemsAux : Nat → List Nat → Option (List (List Nat))
  | _, [] => some []
  | 0, _ :: _ => none
  | fuel + 1, b :: bs => do
    let (item, rest) ← rlpDecodeItem (b :: bs)
    let items ← rlpDecodeItemsAux fuel rest
    pure (item :: items)

/-- RLP decoding of a top-level list of byte strings. -/
def rlpDecodeList (bs : List Nat) : Option (List (List Nat)) :=
  match bs with
  | [] => none
  | b :: rest =>
    if b < 192 then none
    else if b < 248 then
      let len := b - 192
      if rest.length = len then rlpDecodeItemsAux rest.length rest else none
    else
      let ll := b - 247
      if rest.length < ll then none
      else
        let len := bytesToNat (rest.take ll)
        let payload := rest.drop ll
        if payload.length = len then rlpDecodeItemsAux payload.length payload else none

/-- Size bounds under which the RLP length headers are well-formed (the RLP
spec caps lengths below `2 ^ 64`). -/
def rlpSizesOk (items : List (List Nat)) : Bool :=
  items.all (fun i => decide (i.length < 2 ^ 64)) &&
    decide (((items.map rlpEncodeBytes).flatten).length < 2 ^ 64)

/-! ### Data model -/

/-- A function descriptor of the contract interface, restricted to the
properties the library reads: `_.find(abi, \x7bname: functionName\x7d)` matches on
`name` (a JS object may lack the property, hence `Option`), and the ABI
encoder consumes the declared input types. -/
structure AbiDescriptor where
  name : Option String
  inputs : List String
deriving DecidableEq

/-- An opaque argument value forwarded to the ABI encoder. -/
inductive FnArg where
  | argInt (n : Int)
  | argStr (s : String)
  | argBool (b : Bool)
deriving DecidableEq

/-- Typed parameters of `createSignedRawTransaction` after validation
(the `provider`/`web3` plumbing is the injected `RemoteNode` capability). -/
structure TxParams where
  fromAddr : String
  privateKey : String
  contractAddress : String
  abi : List AbiDescriptor
  functionName : String
  functionArguments : List FnArg
  value : Option Int
  gasLimit : Option Int
deriving DecidableEq

/-- Typed parameters of `call` after validation. -/
structure CallParams where
  contractAddress : String
  abi : List AbiDescriptor
  functionName : String
  functionArguments : List FnArg
deriving DecidableEq

/-- The ABI-encoding capability (`web3/lib/web3/function`'s
`SolidityFunction.toPayload`), consumed as an opaque library; its output is a
byte buffer. -/
structure AbiEncoder where
  toPayload : AbiDescriptor → List FnArg → List Nat
  payload_bytes : ∀ d a b, b ∈ toPayload d a → b < 256

/-- The cryptographic capability used by `ethereumjs-tx` (`keccak-256` and
`secp256k1.sign`), consumed as opaque libraries; their outputs are byte
buffers (hence the byte bounds). -/
structure Crypto where
  keccak : List Nat → List Nat
  ecsignR : List Nat → List Nat → List Nat
  ecsignS : List Nat → List Nat → List Nat
  ecsignV : List Nat → List Nat → Nat
  r_bytes : ∀ h k b, b ∈ ecsignR h k → b < 256
  s_bytes : ∀ h k b, b ∈ ecsignS h k → b < 256

/-- The remote-node capability (web3 over an HTTP provider). Each method
either answers or fails with the node's error, passed through verbatim. -/
structure RemoteNode where
  getTransactionCount : String → Except String Nat
  getGasPrice : Except String Nat
  estimateGas : String → List Nat → Except String Nat
  sendRawTransaction : String → Except String String
  ethCall : String → List Nat → Except String String

/-- One remote round-trip issued by the pipeline, with its arguments. -/
inductive RpcCall where
  | getTransactionCount (addr : String)
  | getGasPrice
  | estimateGas (toAddr : String) (data : List Nat)
  | sendRawTransaction (raw : String)
  | ethCall (toAddr : String) (data : List Nat)
deriving DecidableEq

/-- Failure of the signing step (`secp256k1` rejects a decoded key that is
not a valid 32-byte scalar). -/
inductive SignError where
  | malformedKey
deriving DecidableEq

/-- The error surfaced to the caller, by originating stage: the Joi
validation error, the `TypeError` thrown by `new SolidityFunction` when the
lookup found no descriptor, a remote node error passed through verbatim, or
a signing failure. -/
inductive PipeError where
  | validation (key : String)
  | interfaceLookup
  | remote (e : String)
  | signing (e : SignError)
deriving DecidableEq

/-! ### Signer/serializer (`sign_and_serialize`, src/ethereum-remote.js
lines 198-217, plus the `ethereumjs-tx` codec it delegates to) -/

/-- `Buffer.from(params.privateKey, 'hex')` (line 212). -/
def signingKeyBytes (p : TxParams) : List Nat := hexPairDecode p.privateKey.data

/-- Order of the secp256k1 group; `secp256k1.sign` accepts exactly the
32-byte keys whose value is in `(0, secpOrder)`. -/
def secpOrder : Nat :=
  0xfffffffffffffffffffffffffffffffebaaedce6af48a03bbfd25e8cd0364141

/-- The private-key validity check performed by `secp256k1.sign` inside
`tx.sign` (line 213): 32 bytes, value a nonzero scalar below the order. -/
def keyOk (k : List Nat) : Bool :=
  (k.length == 32) && decide (0 < bytesToNat k) && decide (bytesToNat k < secpOrder)

/-- The six unsigned field buffers in `ethereumjs-tx` order
`[nonce, gasPrice, gasLimit, to, value, data]`, exactly as the `rawTx`
object of lines 199-207 is ingested by the codec: numeric fields through
`web3.toHex` + `toBuffer` + `stripZeros` (`fieldBytesI`), `to` through
`toBuffer`, `data` as the encoder's byte buffer. `value` was defaulted to 0
by `createSignedRawTransaction` (lines 130-132) when absent. -/
def txFieldBuffers (p : TxParams) (nonce : Nat) (payload : List Nat)
    (gasPrice : Nat) (gasLimit : Int) : List (List Nat) :=
  [fieldBytesN nonce, fieldBytesN gasPrice, fieldBytesI gasLimit,
   toBufferStr p.contractAddress, fieldBytesI (p.value.getD 0), payload]

/-- The signing pre-image: RLP of the six unsigned fields (`tx.hash(false)`
input in `ethereumjs-tx` v1 without a chain id). -/
def signingPreImage (p : TxParams) (nonce : Nat) (payload : List Nat)
    (gasPrice : Nat) (gasLimit : Int) : List Nat :=
  rlpEncodeList (txFieldBuffers p nonce payload gasPrice gasLimit)

/-- All nine field buffers of the signed transaction:
`[nonce, gasPrice, gasLimit, to, value, data, v, r, s]`, with `v` a small
number ingested like the other numerics and `r`, `s` the signature buffers
stripped of leading zeros (`allowLess` fields). -/
def signedFieldBuffers (crypto : Crypto) (p : TxParams) (nonce : Nat)
    (payload : List Nat) (gasPrice : Nat) (gasLimit : Int) : List (List Nat) :=
  let key := signingKeyBytes p
  let h := crypto.keccak (signingPreImage p nonce payload gasPrice gasLimit)
  txFieldBuffers p nonce payload gasPrice gasLimit ++
    [fieldBytesN (crypto.ecsignV h key),
     stripZeros (crypto.ecsignR h key), stripZeros (crypto.ecsignS h key)]

/-- `sign_and_serialize` (lines 198-217): build the raw field buffers, sign
with the hex-decoded private key, serialize. Fails iff the decoded key is
rejected by `secp256k1.sign`. -/
def sign_and_serialize (crypto : Crypto) (p : TxParams) (nonce : Nat)
    (payload : List Nat) (gasPrice : Nat) (gasLimit : Int) :
    Except SignError (List Nat) :=
  if keyOk (signingKeyBytes p) then
    .ok (rlpEncodeList (signedFieldBuffers crypto p nonce payload gasPrice gasLimit))
  else .error .malformedKey

/-- Outcome of the sign-and-serialize step as seen by the pipeline:
`'0x' + serializedTx.toString('hex')` on success (lines 160, 171). -/
def signResult (crypto : Crypto) (p : TxParams) (nonce : Nat)
    (payload : List Nat) (gasPrice : Nat) (gasLimit : Int) :
    Except PipeError String :=
  match sign_and_serialize crypto p nonce payload gasPrice gasLimit with
  | .error e => .error (.signing e)
  | .ok ser => .ok (bytesToHexString ser)

/-! ### Assembly pipeline and public operations -/

/-- `_.find(params.abi, \x7bname: params.functionName\x7d)` (lines 138-139,
92-93): first descriptor in array order whose `name` equals the requested
function name. -/
def lookupFunction (abi : List AbiDescriptor) (fn : String) : Option AbiDescriptor :=
  abi.find? (fun d => d.name == some fn)

/-- `createSignedRawTransaction` (lines 124-187) on typed params, returning
the outcome together with the ordered trace of remote round-trips issued.
Stages: function lookup (a failed lookup makes `new SolidityFunction` throw
before any remote call), nonce read, gas-price read, then either the
caller's `gasLimit` verbatim (`typeof(params.gasLimit) !== 'undefined'`,
line 155) or a gas estimate for `\x7bto, data\x7d`, then sign-and-serialize.
Each stage failure rejects immediately with the originating error. -/
def createSignedRawTransaction (enc : AbiEncoder) (crypto : Crypto)
    (p : TxParams) (node : RemoteNode) : Except PipeError String × List RpcCall :=
  match lookupFunction p.abi p.functionName with
  | none => (.error .interfaceLookup, [])
  | some d =>
    let payload := enc.toPayload d p.functionArguments
    match node.getTransactionCount p.fromAddr with
    | .error e => (.error (.remote e), [.getTransactionCount p.fromAddr])
    | .ok nonce =>
      match node.getGasPrice with
      | .error e => (.error (.remote e), [.getTransactionCount p.fromAddr, .getGasPrice])
      | .ok gasPrice =>
        match p.gasLimit with
        | some gl =>
          (signResult crypto p nonce payload gasPrice gl,
           [.getTransactionCount p.fromAddr, .getGasPrice])
        | none =>
          match node.estimateGas p.contractAddress payload with
          | .error e =>
            (.error (.remote e),
             [.getTransactionCount p.fromAddr, .getGasPrice,
              .estimateGas p.contractAddress payload])
          | .ok est =>
            (signResult crypto p nonce payload gasPrice (Int.ofNat est),
             [.getTransactionCount p.fromAddr, .getGasPrice,
              .estimateGas p.contractAddress payload])

/-- `sendTransaction` after validation (lines 62-69): assemble and sign,
then broadcast the raw transaction; any stage failure rejects with that
error and no further round-trip happens. -/
def sendTransactionTyped (enc : AbiEncoder) (crypto : Crypto) (p : TxParams)
    (node : RemoteNode) : Except PipeError String × List RpcCall :=
  match createSignedRawTransaction enc crypto p node with
  | (.error e, tr) => (.error e, tr)
  | (.ok raw, tr) =>
    match node.sendRawTransaction raw with
    | .error e => (.error (.remote e), tr ++ [.sendRawTransaction raw])
    | .ok h => (.ok h, tr ++ [.sendRawTransaction raw])

/-- `call` after validation (lines 89-105): lookup, payload encoding, one
`eth_call` round-trip; a failed lookup throws before any remote call. -/
def callTyped (enc : AbiEncoder) (q : CallParams) (node : RemoteNode) :
    Except PipeError String × List RpcCall :=
  match lookupFunction q.abi q.functionName with
  | none => (.error .interfaceLookup, [])
  | some d =>
    let payload := enc.toPayload d q.functionArguments
    match node.ethCall q.contractAddress payload with
    | .error e => (.error (.remote e), [.ethCall q.contractAddress payload])
    | .ok res => (.ok res, [.ethCall q.contractAddress payload])

/-! ### Joi validation gates (`schema_sendTransaction`, `schema_call`,
src/ethereum-remote.js lines 8-26) -/

/-- A dynamically-typed field value of the caller's params object. JS arrays
appear either as an interface (descriptor array) or as an argument array;
Joi only tests `Array.isArray` on them. -/
inductive JsValue where
  | jstr (s : String)
  | jint (n : Int)
  | jabiArr (abi : List AbiDescriptor)
  | jargArr (args : List FnArg)
  | jbool (b : Bool)
  | jnull
deriving DecidableEq

/-- `Joi.string().required()`: present, a string, and (Joi default)
non-empty. -/
def joiStringOk : Option JsValue → Bool
  | some (.jstr s) => !s.isEmpty
  | _ => false

/-- `Joi.array().required()`: present and an array. -/
def joiArrayOk : Option JsValue → Bool
  | some (.jabiArr _) => true
  | some (.jargArr _) => true
  | _ => false

/-- Decimal digit test for the numeric-string conversion below. -/
def isDecDigit (c : Char) : Bool := decide ('0' ≤ c ∧ c ≤ '9')

/-- Non-empty all-decimal character list. -/
def allDecDigits (cs : List Char) : Bool := !cs.isEmpty && cs.all isDecDigit

/-- Decimal value of a digit list. -/
def digitsVal (cs : List Char) : Nat := cs.foldl (fun a c => a * 10 + (c.toNat - 48)) 0

/-- Integer literal parser modelling Joi's string-to-number conversion for
`Joi.number().integer()` fields (Joi converts plain decimal integer
strings; exotic JS `Number` formats are validation glue the spec leaves
unspecified and are not modelled). -/
def decIntLit (s : String) : Option Int :=
  match s.data with
  | '-' :: rest => if allDecDigits rest then some (-(digitsVal rest : Int)) else none
  | cs => if allDecDigits cs then some ((digitsVal cs : Nat) : Int) else none

/-- `Joi.number().integer()` on an optional field: absent is fine; present
values must be integers (or convertible integer strings). -/
def joiOptIntOk : Option JsValue → Bool
  | none => true
  | some (.jint _) => true
  | some (.jstr s) => (decIntLit s).isSome
  | some _ => false

/-- The caller's params object for `sendTransaction`, field by schema key
(`none` models an absent property). -/
structure SendParamsJs where
  fromAddr : Option JsValue
  privateKey : Option JsValue
  contractAddress : Option JsValue
  abi : Option JsValue
  functionName : Option JsValue
  functionArguments : Option JsValue
  provider : Option JsValue
  value : Option JsValue
  gasLimit : Option JsValue
deriving DecidableEq

/-- The caller's params object for `call`. -/
structure CallParamsJs where
  contractAddress : Option JsValue
  abi : Option JsValue
  functionName : Option JsValue
  functionArguments : Option JsValue
  provider : Option JsValue
deriving DecidableEq

/-- `Joi.validate(params, schema_sendTransaction)` (line 57): first failing
key in schema order, `none` when valid. -/
def joiValidateSend (p : SendParamsJs) : Option String :=
  if !joiStringOk p.fromAddr then some "from"
  else if !joiStringOk p.privateKey then some "privateKey"
  else if !joiStringOk p.contractAddress then some "contractAddress"
  else if !joiArrayOk p.abi then some "abi"
  else if !joiStringOk p.functionName then some "functionName"
  else if !joiArrayOk p.functionArguments then some "functionArguments"
  else if !joiStringOk p.provider then some "provider"
  else if !joiOptIntOk p.value then some "value"
  else if !joiOptIntOk p.gasLimit then some "gasLimit"
  else none

/-- `Joi.validate(params, schema_call)` (line 84). -/
def joiValidateCall (q : CallParamsJs) : Option String :=
  if !joiStringOk q.contractAddress then some "contractAddress"
  else if !joiArrayOk q.abi then some "abi"
  else if !joiStringOk q.functionName then some "functionName"
  else if !joiArrayOk q.functionArguments then some "functionArguments"
  else if !joiStringOk q.provider then some "provider"
  else none

/-- Extract a string field (validation guarantees presence on the path
where this is used). -/
def getStr : Option JsValue → String
  | some (.jstr s) => s
  | _ => ""

/-- Extract the interface array. -/
def getAbi : Option JsValue → List AbiDescriptor
  | some (.jabiArr a) => a
  | _ => []

/-- Extract the argument array. -/
def getArgs : Option JsValue → List FnArg
  | some (.jargArr a) => a
  | _ => []

/-- Extract an optional integer field. -/
def getOptInt : Option JsValue → Option Int
  | some (.jint n) => some n
  | some (.jstr s) => decIntLit s
  | _ => none

/-- Typed view of a validated `sendTransaction` params object. -/
def decodeSendParams (p : SendParamsJs) : TxParams :=
  { fromAddr := getStr p.fromAddr
    privateKey := getStr p.privateKey
    contractAddress := getStr p.contractAddress
    abi := getAbi p.abi
    functionName := getStr p.functionName
    functionArguments := getArgs p.functionArguments
    value := getOptInt p.value
    gasLimit := getOptInt p.gasLimit }

/-- Typed view of a validated `call` params object. -/
def decodeCallParams (q : CallParamsJs) : CallParams :=
  { contractAddress := getStr q.contractAddress
    abi := getAbi q.abi
    functionName := getStr q.functionName
    functionArguments := getArgs q.functionArguments }

/-- `sendTransaction` (lines 56-71): Joi validation throws synchronously
before the promise (and hence before any remote access); otherwise the
typed pipeline runs. -/
def sendTransactionJs (enc : AbiEncoder) (crypto : Crypto) (p : SendParamsJs)
    (node : RemoteNode) : Except PipeError String × List RpcCall :=
  match joiValidateSend p with
  | some key => (.error (.validation key), [])
  | none => sendTransactionTyped enc crypto (decodeSendParams p) node

/-- `call` (lines 83-106): same validation gate, then the message-call
path. -/
def callJs (enc : AbiEncoder) (q : CallParamsJs) (node : RemoteNode) :
    Except PipeError String × List RpcCall :=
  match joiValidateCall q with
  | some key => (.error (.validation key), [])
  | none => callTyped enc (decodeCallParams q) node

/-! ### Object mutation model (claim C9: lines 130-132 mutate the params
object; `sendTransaction` passes a fresh `_.omit`/`_.assign` copy) -/

/-- The mutable JS params object, with the properties that
`createSignedRawTransaction` / `sendTransaction` read or write. -/
structure ParamsObj where
  fromAddr : String
  privateKey : String
  contractAddress : String
  abi : List AbiDescriptor
  functionName : String
  functionArguments : List FnArg
  provider : Option String
  hasWeb3 : Bool
  value : Option Int
  gasLimit : Option Int
deriving DecidableEq

/-- Lines 130-132: `if (!params.hasOwnProperty('value')) params.value = 0`. -/
def csrtDefaultValueMutation (o : ParamsObj) : ParamsObj :=
  if o.value = none then { o with value := some 0 } else o

/-- `_.assign(_.omit(params, ['provider']), \x7bweb3: web3\x7d)` (line 65):
a fresh shallow copy without `provider`, with a `web3` property attached. -/
def omitProviderAssignWeb3 (o : ParamsObj) : ParamsObj :=
  { o with provider := none, hasWeb3 := true }

/-- A heap of params objects; an object reference is its index. -/
abbrev Heap : Type := List ParamsObj

/-- Effect of `createSignedRawTransaction` on the heap: in-place default of
`value` on the object passed to it (its only mutation of inputs). -/
def csrtOnHeap (h : Heap) (i : Nat) : Heap :=
  match h[i]? with
  | some o => h.set i (csrtDefaultValueMutation o)
  | none => h

/-- Effect of `sendTransaction` on the heap: it allocates the shallow copy
and hands that copy (not the caller's object) to
`createSignedRawTransaction`. -/
def sendTransactionOnHeap (h : Heap) (i : Nat) : Heap :=
  match h[i]? with
  | none => h
  | some o => csrtOnHeap (h ++ [omitProviderAssignWeb3 o]) h.length

/-! ### Concrete instances for witnesses -/

/-- A trivial keccak/secp256k1 capability instance for concrete runs. -/
def cryptoW : Crypto :=
  { keccak := fun _ => List.replicate 32 0
    ecsignR := fun _ _ => List.replicate 32 1
    ecsignS := fun _ _ => List.replicate 32 2
    ecsignV := fun _ _ => 27
    r_bytes := by intro h k b hb; rw [List.mem_replicate] at hb; omega
    s_bytes := by intro h k b hb; rw [List.mem_replicate] at hb; omega }

/-- A trivial ABI-encoder capability instance for concrete runs. -/
def encW : AbiEncoder :=
  { toPayload := fun _ _ => [1, 2, 3, 4]
    payload_bytes := by intro d a b hb; simp only [List.mem_cons, List.not_mem_nil, or_false] at hb; omega }

/-- A valid 64-hex-digit private key. -/
def keyW : String := "1111111111111111111111111111111111111111111111111111111111111111"

/-- A malformed private key: 66 characters, not valid hex. -/
def keyBad : String := keyW ++ "zz"

/-- Sample descriptor and interface. -/
def dW : AbiDescriptor := { name := some "double", inputs := ["uint256"] }

/-- A one-descriptor interface. -/
def abiW : List AbiDescriptor := [dW]

/-- An interface with two descriptors sharing a name (overloads). -/
def abiOverloaded : List AbiDescriptor :=
  [{ name := some "f", inputs := ["uint256"] }, { name := some "f", inputs := ["address"] }]

/-- Sample typed params with a caller-supplied gas limit of 0. -/
def pW : TxParams :=
  { fromAddr := "0xaaaa", privateKey := keyW, contractAddress := "0xbbbb",
    abi := abiW, functionName := "double", functionArguments := [.argInt 3],
    value := some 1, gasLimit := some 0 }

/-- Sample typed params without a gas limit. -/
def pWnoGas : TxParams := { pW with gasLimit := none }

/-- A remote node answering every query. -/
def nodeW : RemoteNode :=
  { getTransactionCount := fun _ => .ok 0
    getGasPrice := .ok 3
    estimateGas := fun _ _ => .ok 21000
    sendRawTransaction := fun _ => .ok "0xhash"
    ethCall := fun _ _ => .ok "0xres" }

/-- A remote node whose nonce read fails. -/
def nodeFailNonce : RemoteNode :=
  { nodeW with getTransactionCount := fun _ => .error "boom" }

/-- Call params naming a function absent from the interface. -/
def qMissing : CallParams :=
  { contractAddress := "0xbbbb", abi := abiW, functionName := "ping",
    functionArguments := [] }

/-- A `sendTransaction` params object missing the required `privateKey`. -/
def psBadJs : SendParamsJs :=
  { fromAddr := some (.jstr "0xaaaa"), privateKey := none,
    contractAddress := some (.jstr "0xbbbb"), abi := some (.jabiArr abiW),
    functionName := some (.jstr "double"), functionArguments := some (.jargArr []),
    provider := some (.jstr "http://node"), value := none, gasLimit := none }

/-- A `call` params object whose `abi` has the wrong shape (a number). -/
def qsBadJs : CallParamsJs :=
  { contractAddress := some (.jstr "0xbbbb"), abi := some (.jint 5),
    functionName := some (.jstr "f"), functionArguments := some (.jargArr []),
    provider := some (.jstr "http://node") }

/-- A params object with `value` unspecified, for the mutation claims. -/
def objW : ParamsObj :=
  { fromAddr := "0xaaaa", privateKey := keyW, contractAddress := "0xbbbb",
    abi := abiW, functionName := "double", functionArguments := [.argInt 3],
    provider := some "http://node", hasWeb3 := false, value := none,
    gasLimit := none }

/-- Typed params naming a function absent from the interface. -/
def pPing : TxParams := { pW with functionName := "ping" }

/-- Typed params with a too-short private key. -/
def pShortKey : TxParams := { pW with privateKey := "123" }

/-- Typed params with the malformed-but-truncatable private key. -/
def pBadHex : TxParams := { pW with privateKey := keyBad }

/-- Call params against the overloaded interface. -/
def qOver : CallParams :=
  { contractAddress := "0xbbbb", abi := abiOverloaded, functionName := "f",
    functionArguments := [] }

/-! ### Lemmas: big-endian values -/

theorem foldlBytesAux : ∀ (b : List Nat) (acc : Nat),
    b.foldl (fun a x => a * 256 + x) acc =
      acc * 256 ^ b.length + b.foldl (fun a x => a * 256 + x) 0 := by
  intro b
  induction b with
  | nil => intro acc; simp
  | cons x xs ih =>
    intro acc
    rw [List.foldl_cons, ih (acc * 256 + x), List.foldl_cons, ih (0 * 256 + x),
        List.length_cons]
    ring

theorem foldlBytes (b : List Nat) (acc : Nat) :
    b.foldl (fun a x => a * 256 + x) acc = acc * 256 ^ b.length + bytesToNat b :=
  foldlBytesAux b acc

theorem bytesToNat_append (a b : List Nat) :
    bytesToNat (a ++ b) = bytesToNat a * 256 ^ b.length + bytesToNat b := by
  unfold bytesToNat
  rw [List.foldl_append]
  exact foldlBytesAux b _

theorem specMinBeGo_congr : ∀ f1 n f2 : Nat, n ≤ f1 → n ≤ f2 →
    specMinBeGo f1 n = specMinBeGo f2 n := by
  intro f1
  induction f1 with
  | zero =>
    intro n f2 h1 _h2
    have : n = 0 := by omega
    subst this
    cases f2 <;> simp [specMinBeGo]
  | succ a ih =>
    intro n f2 h1 h2
    rcases n with _ | m
    · cases f2 <;> simp [specMinBeGo]
    · rcases f2 with _ | b
      · omega
      · simp only [specMinBeGo]
        have hlt := Nat.div_lt_self (Nat.succ_pos m) (by norm_num : 1 < 256)
        rw [ih ((m + 1) / 256) b (by omega) (by omega)]

theorem specMinBe_zero : specMinBe 0 = [] := rfl

theorem specMinBe_succ (n : Nat) (h : n ≠ 0) :
    specMinBe n = specMinBe (n / 256) ++ [n % 256] := by
  rcases n with _ | m
  · exact absurd rfl h
  · show specMinBeGo (m + 1) (m + 1) = _
    simp only [specMinBeGo]
    congr 1
    apply specMinBeGo_congr
    · have := Nat.div_lt_self (Nat.succ_pos m) (by norm_num : 1 < 256)
      omega
    · exact le_refl _

theorem bytesToNat_specMinBe (n : Nat) : bytesToNat (specMinBe n) = n := by
  induction n using Nat.strong_induction_on with
  | _ n ih =>
    rcases Nat.eq_zero_or_pos n with h0 | hpos
    · subst h0; simp [specMinBe_zero, bytesToNat]
    · rw [specMinBe_succ n (by omega), bytesToNat_append,
          ih (n / 256) (Nat.div_lt_self hpos (by norm_num))]
      simp [bytesToNat]
      omega

theorem specMinBe_head : ∀ n : Nat, n ≠ 0 → ∃ b t, specMinBe n = b :: t ∧ b ≠ 0 := by
  intro n
  induction n using Nat.strong_induction_on with
  | _ n ih =>
    intro h
    rcases Nat.lt_or_ge n 256 with h256 | h256
    · rw [specMinBe_succ n h, Nat.div_eq_of_lt h256, specMinBe_zero]
      exact ⟨n % 256, [], by simp, by omega⟩
    · rw [specMinBe_succ n h]
      obtain ⟨b, t, he, hb⟩ :=
        ih (n / 256) (Nat.div_lt_self (by omega) (by norm_num)) (by omega)
      exact ⟨b, t ++ [n % 256], by rw [he]; simp, hb⟩

theorem specMinBe_lt : ∀ n b : Nat, b ∈ specMinBe n → b < 256 := by
  intro n
  induction n using Nat.strong_induction_on with
  | _ n ih =>
    intro b hb
    rcases Nat.eq_zero_or_pos n with h0 | hpos
    · subst h0; simp [specMinBe_zero] at hb
    · rw [specMinBe_succ n (by omega)] at hb
      rcases List.mem_append.1 hb with h | h
      · exact ih (n / 256) (Nat.div_lt_self hpos (by norm_num)) b h
      · simp at h; omega

theorem specMinBe_length_le : ∀ k n : Nat, n < 256 ^ k → (specMinBe n).length ≤ k := by
  intro k
  induction k with
  | zero =>
    intro n h
    have : n = 0 := by simpa using h
    subst this
    simp [specMinBe_zero]
  | succ k ih =>
    intro n h
    rcases Nat.eq_zero_or_pos n with h0 | hpos
    · subst h0; simp [specMinBe_zero]
    · rw [specMinBe_succ n (by omega)]
      have hdiv : n / 256 < 256 ^ k := by
        rw [Nat.div_lt_iff_lt_mul (by norm_num : 0 < 256)]
        calc n < 256 ^ (k + 1) := h
          _ = 256 ^ k * 256 := by ring
      have := ih (n / 256) hdiv
      simp only [List.length_append, List.length_cons, List.length_nil]
      omega

theorem specMinBe_ne_nil (n : Nat) (h : n ≠ 0) : specMinBe n ≠ [] := by
  obtain ⟨b, t, he, _⟩ := specMinBe_head n h
  rw [he]
  simp

/-! ### Lemmas: hex digits and pair decoding -/

theorem hexDigitsGo_congr : ∀ f1 n f2 : Nat, n ≤ f1 → n ≤ f2 →
    hexDigitsGo f1 n = hexDigitsGo f2 n := by
  intro f1
  induction f1 with
  | zero =>
    intro n f2 h1 _h2
    have : n = 0 := by omega
    subst this
    cases f2 with
    | zero => rfl
    | succ b => simp [hexDigitsGo]
  | succ a ih =>
    intro n f2 h1 h2
    by_cases h16 : n < 16
    · cases f2 with
      | zero =>
        have : n = 0 := by omega
        subst this
        simp [hexDigitsGo]
      | succ b => simp [hexDigitsGo, h16]
    · rcases f2 with _ | b
      · omega
      · simp only [hexDigitsGo, if_neg h16]
        have hlt := Nat.div_lt_self (show 0 < n by omega) (by norm_num : 1 < 16)
        rw [ih (n / 16) b (by omega) (by omega)]

theorem hexDigits_eq (n : Nat) : hexDigits n =
    if n < 16 then [hexDigitChar n]
    else hexDigits (n / 16) ++ [hexDigitChar (n % 16)] := by
  by_cases h : n < 16
  · rcases n with _ | m
    · simp [hexDigits, hexDigitsGo]
    · simp [hexDigits, hexDigitsGo, h]
  · rcases n with _ | m
    · omega
    · rw [if_neg h]
      show hexDigitsGo (m + 1) (m + 1) = _
      simp only [hexDigitsGo, if_neg h]
      congr 1
      apply hexDigitsGo_congr
      · have := Nat.div_lt_self (Nat.succ_pos m) (by norm_num : 1 < 16)
        omega
      · exact le_refl _

theorem hexVal_hexDigitChar : ∀ d : Nat, d < 16 → hexVal (hexDigitChar d) = some d := by
  decide

theorem hexDigits_valid : ∀ (n : Nat) (c : Char), c ∈ hexDigits n → (hexVal c).isSome = true := by
  intro n
  induction n using Nat.strong_induction_on with
  | _ n ih =>
    intro c hc
    rw [hexDigits_eq] at hc
    by_cases h : n < 16
    · rw [if_pos h] at hc
      simp at hc
      subst hc
      rw [hexVal_hexDigitChar n h]
      rfl
    · rw [if_neg h] at hc
      rcases List.mem_append.1 hc with h1 | h1
      · exact ih (n / 16) (Nat.div_lt_self (by omega) (by norm_num)) c h1
      · simp at h1
        subst h1
        rw [hexVal_hexDigitChar _ (Nat.mod_lt n (by norm_num))]
        rfl

theorem padToEvenChars_even (cs : List Char) : (padToEvenChars cs).length % 2 = 0 := by
  unfold padToEvenChars
  by_cases h : cs.length % 2 = 1
  · rw [if_pos h]; simp; omega
  · rw [if_neg h]; omega

theorem padToEvenChars_append_two (a : List Char) (x y : Char) :
    padToEvenChars (a ++ [x, y]) = padToEvenChars a ++ [x, y] := by
  unfold padToEvenChars
  simp only [List.length_append, List.length_cons, List.length_nil]
  by_cases h : a.length % 2 = 1
  · rw [if_pos (by omega), if_pos h]
    rfl
  · rw [if_neg (by omega), if_neg h]

theorem padToEvenChars_valid (cs : List Char) (h : ∀ c ∈ cs, (hexVal c).isSome = true) :
    ∀ c ∈ padToEvenChars cs, (hexVal c).isSome = true := by
  intro c hc
  unfold padToEvenChars at hc
  by_cases hp : cs.length % 2 = 1
  · rw [if_pos hp] at hc
    rcases List.mem_cons.1 hc with h1 | h1
    · subst h1; decide
    · exact h c h1
  · rw [if_neg hp] at hc
    exact h c hc

theorem hexVal_lt (c : Char) (v : Nat) (h : hexVal c = some v) : v < 16 := by
  unfold hexVal at h
  split_ifs at h with h1 h2 h3 <;> simp at h <;> omega

theorem hexPairDecode_append : ∀ b : List Char, b.length % 2 = 0 →
    (∀ c ∈ b, (hexVal c).isSome = true) →
    ∀ t, hexPairDecode (b ++ t) = hexPairDecode b ++ hexPairDecode t
  | [], _, _, _ => rfl
  | [c], h, _, t => by simp at h
  | c1 :: c2 :: rest, hlen, hall, t => by
    obtain ⟨v1, hv1⟩ := Option.isSome_iff_exists.1 (hall c1 (by simp))
    obtain ⟨v2, hv2⟩ := Option.isSome_iff_exists.1 (hall c2 (by simp))
    have ih := hexPairDecode_append rest (by simp at hlen; omega)
      (fun c hc => hall c (by simp [hc])) t
    simp only [List.cons_append, hexPairDecode, hv1, hv2, List.append_eq, ih]

theorem hexPairDecode_lt : ∀ (cs : List Char) (b : Nat), b ∈ hexPairDecode cs → b < 256
  | [], b, hb => by simp [hexPairDecode] at hb
  | [c], b, hb => by simp [hexPairDecode] at hb
  | c1 :: c2 :: rest, b, hb => by
    rcases hv1 : hexVal c1 with _ | v1 <;> rcases hv2 : hexVal c2 with _ | v2 <;>
      simp only [hexPairDecode, hv1, hv2] at hb
    · simp at hb
    · simp at hb
    · simp at hb
    · rcases List.mem_cons.1 hb with h1 | h1
      · have b1 := hexVal_lt c1 v1 hv1
        have b2 := hexVal_lt c2 v2 hv2
        omega
      · exact hexPairDecode_lt rest b h1

theorem pairsPadHex : ∀ n : Nat, hexPairDecode (padToEvenChars (hexDigits n)) =
    if n = 0 then [0] else specMinBe n := by
  intro n
  induction n using Nat.strong_induction_on with
  | _ n ih =>
    rcases Nat.lt_or_ge n 16 with h16 | h16
    · rw [hexDigits_eq, if_pos h16]
      have hpad : padToEvenChars [hexDigitChar n] = ['0', hexDigitChar n] := by
        simp [padToEvenChars]
      rw [hpad]
      have hv := hexVal_hexDigitChar n h16
      have hv0 : hexVal '0' = some 0 := by decide
      simp only [hexPairDecode, hv0, hv]
      rcases Nat.eq_zero_or_pos n with h0 | hpos
      · subst h0; simp
      · rw [if_neg (by omega)]
        rw [specMinBe_succ n (by omega), Nat.div_eq_of_lt (by omega), specMinBe_zero,
            Nat.mod_eq_of_lt (by omega)]
        simp
    · rcases Nat.lt_or_ge n 256 with h256 | h256
      · rw [hexDigits_eq, if_neg (by omega), hexDigits_eq (n / 16),
            if_pos (by omega : n / 16 < 16)]
        have hpad : padToEvenChars ([hexDigitChar (n / 16)] ++ [hexDigitChar (n % 16)]) =
            [hexDigitChar (n / 16), hexDigitChar (n % 16)] := by
          simp [padToEvenChars]
        rw [hpad]
        have hv1 := hexVal_hexDigitChar (n / 16) (by omega)
        have hv2 := hexVal_hexDigitChar (n % 16) (by omega)
        simp only [hexPairDecode, hv1, hv2]
        rw [if_neg (by omega : ¬n = 0)]
        rw [specMinBe_succ n (by omega), Nat.div_eq_of_lt h256, specMinBe_zero,
            Nat.mod_eq_of_lt h256]
        simp only [List.nil_append, List.cons.injEq, and_true]
        omega
      · have e1 : hexDigits n =
            hexDigits (n / 256) ++ [hexDigitChar (n / 16 % 16), hexDigitChar (n % 16)] := by
          rw [hexDigits_eq n, if_neg (by omega)]
          rw [hexDigits_eq (n / 16), if_neg (by omega)]
          rw [Nat.div_div_eq_div_mul]
          norm_num
        rw [e1, padToEvenChars_append_two,
            hexPairDecode_append (padToEvenChars (hexDigits (n / 256)))
              (padToEvenChars_even _)
              (padToEvenChars_valid _ (hexDigits_valid (n / 256)))]
        rw [ih (n / 256) (Nat.div_lt_self (by omega) (by norm_num)),
            if_neg (by omega : ¬n / 256 = 0)]
        have hv1 := hexVal_hexDigitChar (n / 16 % 16) (by omega)
        have hv2 := hexVal_hexDigitChar (n % 16) (by omega)
        simp only [hexPairDecode, hv1, hv2]
        rw [if_neg (by omega : ¬n = 0), specMinBe_succ n (by omega)]
        congr 1
        simp only [List.cons.injEq, and_true]
        omega

/-! ### Lemmas: the numeric-field encoding chain -/

theorem stripZeros_cons_pos (b : Nat) (h : b ≠ 0) (t : List Nat) :
    stripZeros (b :: t) = b :: t := by
  rcases b with _ | m
  · omega
  · rfl

theorem stripZeros_mem : ∀ (l : List Nat) (b : Nat), b ∈ stripZeros l → b ∈ l
  | [], b, hb => by simp [stripZeros] at hb
  | 0 :: rest, b, hb => by
    have h : stripZeros (0 :: rest) = stripZeros rest := rfl
    rw [h] at hb
    exact List.mem_cons_of_mem 0 (stripZeros_mem rest b hb)
  | (m + 1) :: rest, b, hb => by
    have h : stripZeros ((m + 1) :: rest) = (m + 1) :: rest := rfl
    rwa [h] at hb

theorem fieldBytesI_ofNat (n : Nat) : fieldBytesI (Int.ofNat n) = specMinBe n := by
  unfold fieldBytesI web3toHex
  rw [if_neg (by rw [Int.ofNat_eq_natCast]; omega : ¬(Int.ofNat n < 0))]
  have ht : toBufferStr (String.mk ('0' :: 'x' :: hexDigits (Int.ofNat n).toNat)) =
      hexPairDecode (padToEvenChars (hexDigits (Int.ofNat n).toNat)) := rfl
  rw [ht]
  have hn : (Int.ofNat n).toNat = n := rfl
  rw [hn, pairsPadHex]
  by_cases h0 : n = 0
  · rw [if_pos h0]
    subst h0
    rfl
  · rw [if_neg h0]
    obtain ⟨b, t, he, hb⟩ := specMinBe_head n h0
    rw [he, stripZeros_cons_pos b hb]

theorem fieldBytesN_eq (n : Nat) : fieldBytesN n = specMinBe n := fieldBytesI_ofNat n

theorem fieldBytesI_nonneg (i : Int) (h : 0 ≤ i) : fieldBytesI i = specMinBe i.toNat := by
  rw [show i = Int.ofNat i.toNat from by rw [Int.ofNat_eq_natCast]; omega]
  exact fieldBytesI_ofNat i.toNat

theorem toBufferStr_lt (s : String) : ∀ b ∈ toBufferStr s, b < 256 := by
  intro b hb
  unfold toBufferStr at hb
  split at hb
  · exact hexPairDecode_lt _ b hb
  · unfold utf8Bytes at hb
    simp at hb
    obtain ⟨x, _, hx⟩ := hb
    subst hx
    exact x.toNat_lt

/-! ### Lemmas: RLP round-trip -/

theorem rlpEncodeBytes_ne_nil (b : List Nat) : rlpEncodeBytes b ≠ [] := by
  rcases b with _ | ⟨x, _ | ⟨y, rest⟩⟩
  · simp [rlpEncodeBytes]
  · by_cases h : x < 128 <;> simp [rlpEncodeBytes, h]
  · simp only [rlpEncodeBytes]
    split_ifs <;> simp

theorem rlpDecodeItem_encode (b : List Nat) (hb : ∀ x ∈ b, x < 256)
    (hlen : b.length < 2 ^ 64) (t : List Nat) :
    rlpDecodeItem (rlpEncodeBytes b ++ t) = some (b, t) := by
  rcases b with _ | ⟨x, b2⟩
  · have he : rlpEncodeBytes ([] : List Nat) = [128] := by simp [rlpEncodeBytes]
    rw [he]
    show rlpDecodeItem (128 :: t) = some ([], t)
    simp only [rlpDecodeItem]
    norm_num
  · rcases b2 with _ | ⟨y, b3⟩
    · by_cases hx : x < 128
      · have he : rlpEncodeBytes [x] = [x] := by simp [rlpEncodeBytes, hx]
        rw [he]
        show rlpDecodeItem (x :: t) = some ([x], t)
        simp only [rlpDecodeItem]
        rw [if_pos hx]
      · have he : rlpEncodeBytes [x] = [129, x] := by
          simp only [rlpEncodeBytes]
          rw [if_neg hx]
        rw [he]
        show rlpDecodeItem (129 :: x :: t) = some ([x], t)
        simp only [rlpDecodeItem]
        rw [if_neg (by omega), if_pos (by omega),
            if_neg (by simp only [List.length_cons]; omega)]
        norm_num
    · by_cases h56 : (x :: y :: b3).length < 56
      · have he : rlpEncodeBytes (x :: y :: b3) =
            (128 + (x :: y :: b3).length) :: (x :: y :: b3) := by
          simp only [rlpEncodeBytes]
          rw [if_pos h56]
        rw [he, List.cons_append]
        simp only [rlpDecodeItem]
        rw [if_neg (by omega), if_pos (by omega),
            if_neg (by simp only [List.length_append]; omega)]
        have hsub : 128 + (x :: y :: b3).length - 128 = (x :: y :: b3).length := by omega
        rw [hsub, List.take_left, List.drop_left]
      · have he : rlpEncodeBytes (x :: y :: b3) =
            (183 + (specMinBe (x :: y :: b3).length).length) ::
              (specMinBe (x :: y :: b3).length ++ (x :: y :: b3)) := by
          simp only [rlpEncodeBytes]
          rw [if_neg h56]
        have hsl1 : 1 ≤ (specMinBe (x :: y :: b3).length).length := by
          rcases specMinBe_head (x :: y :: b3).length (by simp) with ⟨c, u, hcu, _⟩
          rw [hcu]
          simp
        have hsl8 : (specMinBe (x :: y :: b3).length).length ≤ 8 := by
          have h8 : (2 : Nat) ^ 64 = 256 ^ 8 := by norm_num
          exact specMinBe_length_le 8 _ (h8 ▸ hlen)
        rw [he, List.cons_append]
        simp only [rlpDecodeItem]
        rw [if_neg (by omega), if_neg (by omega), if_pos (by omega)]
        have hsub : 183 + (specMinBe (x :: y :: b3).length).length - 183 =
            (specMinBe (x :: y :: b3).length).length := by omega
        rw [hsub, List.append_assoc, List.take_left, List.drop_left, bytesToNat_specMinBe,
            if_neg (by simp only [List.length_append]; omega), List.take_left, List.drop_left]
        rw [if_neg (by simp only [List.length_append, List.length_cons]; omega)]

theorem rlpDecodeItemsAux_encode : ∀ (items : List (List Nat)) (fuel : Nat),
    (∀ i ∈ items, ∀ b ∈ i, b < 256) → (∀ i ∈ items, i.length < 2 ^ 64) →
    items.length ≤ fuel →
    rlpDecodeItemsAux fuel ((items.map rlpEncodeBytes).flatten) = some items := by
  intro items
  induction items with
  | nil => intro fuel _ _ _; cases fuel <;> rfl
  | cons i rest ih =>
    intro fuel hb hl hf
    have hne : rlpEncodeBytes i ++ (rest.map rlpEncodeBytes).flatten ≠ [] := by
      intro hcontra
      exact rlpEncodeBytes_ne_nil i (List.append_eq_nil.1 hcontra).1
    rcases fuel with _ | f
    · simp at hf
    · have hflat : ((i :: rest).map rlpEncodeBytes).flatten =
          rlpEncodeBytes i ++ (rest.map rlpEncodeBytes).flatten := by simp
      have hdec := rlpDecodeItem_encode i (hb i (by simp)) (hl i (by simp))
        ((rest.map rlpEncodeBytes).flatten)
      have hrec := ih f (fun j hj => hb j (by simp [hj])) (fun j hj => hl j (by simp [hj]))
        (by simp at hf; omega)
      rw [hflat]
      rcases hflateq : rlpEncodeBytes i ++ (rest.map rlpEncodeBytes).flatten with _ | ⟨z, zs⟩
      · exact absurd hflateq hne
      · simp only [rlpDecodeItemsAux]
        rw [← hflateq, hdec]
        simp [hrec]

theorem rlpDecodeList_encode (items : List (List Nat))
    (hb : ∀ i ∈ items, ∀ x ∈ i, x < 256)
    (hs : rlpSizesOk items = true) :
    rlpDecodeList (rlpEncodeList items) = some items := by
  unfold rlpSizesOk at hs
  rw [Bool.and_eq_true] at hs
  obtain ⟨hs1, hs2⟩ := hs
  have hl : ∀ i ∈ items, i.length < 2 ^ 64 := by
    intro i hi
    have h1 := List.all_eq_true.1 hs1 i hi
    simpa using h1
  have hp : ((items.map rlpEncodeBytes).flatten).length < 2 ^ 64 := of_decide_eq_true hs2
  have hcount : items.length ≤ ((items.map rlpEncodeBytes).flatten).length := by
    clear hs1 hs2 hl hp hb
    induction items with
    | nil => simp
    | cons i rest ih =>
      simp only [List.map_cons, List.flatten_cons, List.length_append, List.length_cons]
      have h1 : 1 ≤ (rlpEncodeBytes i).length := by
        rcases hq : rlpEncodeBytes i with _ | _
        · exact absurd hq (rlpEncodeBytes_ne_nil i)
        · simp
      omega
  simp only [rlpEncodeList]
  by_cases h56 : ((items.map rlpEncodeBytes).flatten).length < 56
  · rw [if_pos h56]
    simp only [rlpDecodeList]
    rw [if_neg (by omega), if_pos (by omega)]
    have hsub : 192 + ((items.map rlpEncodeBytes).flatten).length - 192 =
        ((items.map rlpEncodeBytes).flatten).length := by omega
    rw [hsub, if_pos rfl]
    exact rlpDecodeItemsAux_encode items _ hb hl hcount
  · rw [if_neg h56]
    have hsl1 : 1 ≤ (specMinBe ((items.map rlpEncodeBytes).flatten).length).length := by
      rcases specMinBe_head ((items.map rlpEncodeBytes).flatten).length (by omega) with
        ⟨c, u, hcu, _⟩
      rw [hcu]
      simp
    have hsl8 : (specMinBe ((items.map rlpEncodeBytes).flatten).length).length ≤ 8 := by
      have h8 : (2 : Nat) ^ 64 = 256 ^ 8 := by norm_num
      exact specMinBe_length_le 8 _ (h8 ▸ hp)
    simp only [rlpDecodeList]
    rw [if_neg (by omega), if_neg (by omega)]
    have hsub : 247 + (specMinBe ((items.map rlpEncodeBytes).flatten).length).length - 247 =
        (specMinBe ((items.map rlpEncodeBytes).flatten).length).length := by omega
    rw [hsub, if_neg (by simp only [List.length_append]; omega),
        List.take_left, List.drop_left, bytesToNat_specMinBe, if_pos rfl]
    exact rlpDecodeItemsAux_encode items _ hb hl hcount

/-! ### Lemmas: pipeline plumbing -/

theorem fieldBytesI_lt (i : Int) : ∀ b ∈ fieldBytesI i, b < 256 := by
  intro b hb
  unfold fieldBytesI at hb
  exact toBufferStr_lt _ b (stripZeros_mem _ b hb)

theorem list_set_self {α : Type} : ∀ (l : List α) (i : Nat) (o : α),
    l[i]? = some o → l.set i o = l
  | [], i, o, hg => by simp at hg
  | a :: t, 0, o, hg => by
    simp at hg
    subst hg
    rfl
  | a :: t, i + 1, o, hg => by
    simp only [List.getElem?_cons_succ] at hg
    simp only [List.set_cons_succ]
    rw [list_set_self t i o hg]

/-! ### Claim theorems -/

/-- C1: every numeric field (nonce, gasPrice, gasLimit, value) of an
unsigned transaction assembled by the pipeline enters the canonical
transaction codec as its minimal-width big-endian encoding, with no leading
zero bytes (`specMinBe` is the spec-side definition of that encoding); in
particular a zero value or zero nonce contributes the empty byte string,
not a single zero byte. -/
theorem c1_minimal_numeric_encoding (p : TxParams) (nonce gasPrice : Nat)
    (payload : List Nat) (glN vN : Nat) (hv : p.value = some (Int.ofNat vN)) :
    txFieldBuffers p nonce payload gasPrice (Int.ofNat glN) =
      [specMinBe nonce, specMinBe gasPrice, specMinBe glN,
       toBufferStr p.contractAddress, specMinBe vN, payload]
    ∧ specMinBe 0 = []
    ∧ (vN = 0 → fieldBytesI (p.value.getD 0) = [])
    ∧ (nonce = 0 → fieldBytesN nonce = []) := by
  refine ⟨?_, rfl, ?_, ?_⟩
  · unfold txFieldBuffers
    rw [hv]
    simp only [Option.getD_some]
    rw [fieldBytesN_eq, fieldBytesN_eq, fieldBytesI_ofNat, fieldBytesI_ofNat]
  · intro h0
    rw [hv]
    simp only [Option.getD_some]
    subst h0
    rw [fieldBytesI_ofNat]
    rfl
  · intro h0
    subst h0
    rw [fieldBytesN_eq]
    rfl

/-- Witness for C1 at a concrete transaction. -/
theorem c1_minimal_numeric_encoding_witness :
    pW.value = some (Int.ofNat 1) ∧
    (txFieldBuffers pW 0 [1, 2, 3, 4] 3 (Int.ofNat 0) =
      [specMinBe 0, specMinBe 3, specMinBe 0,
       toBufferStr pW.contractAddress, specMinBe 1, [1, 2, 3, 4]]
     ∧ specMinBe 0 = []
     ∧ ((1 : Nat) = 0 → fieldBytesI (pW.value.getD 0) = [])
     ∧ ((0 : Nat) = 0 → fieldBytesN 0 = [])) :=
  ⟨rfl, c1_minimal_numeric_encoding pW 0 3 [1, 2, 3, 4] 0 1 rfl⟩

/-- C2: with nonce and gas price resolved, a caller-supplied gasLimit (any
integer, including 0) is used verbatim and only the two reads
`getTransactionCount` and `getGasPrice` are issued — `estimateGas` never
appears in the trace; with gasLimit absent, a third read estimates gas for
`\x7bto: contractAddress, data: payload\x7d` and that estimate becomes the gas
limit. -/
theorem c2_gas_limit_resolution (enc : AbiEncoder) (crypto : Crypto) (p : TxParams)
    (node : RemoteNode) (d : AbiDescriptor) (nonce gasPrice : Nat)
    (hd : lookupFunction p.abi p.functionName = some d)
    (hn : node.getTransactionCount p.fromAddr = .ok nonce)
    (hg : node.getGasPrice = .ok gasPrice) :
    (∀ gl, p.gasLimit = some gl →
      createSignedRawTransaction enc crypto p node =
        (signResult crypto p nonce (enc.toPayload d p.functionArguments) gasPrice gl,
         [.getTransactionCount p.fromAddr, .getGasPrice]))
    ∧ (∀ est, p.gasLimit = none →
        node.estimateGas p.contractAddress (enc.toPayload d p.functionArguments) = .ok est →
        createSignedRawTransaction enc crypto p node =
          (signResult crypto p nonce (enc.toPayload d p.functionArguments) gasPrice
             (Int.ofNat est),
           [.getTransactionCount p.fromAddr, .getGasPrice,
            .estimateGas p.contractAddress (enc.toPayload d p.functionArguments)])) := by
  constructor
  · intro gl hgl
    simp only [createSignedRawTransaction, hd, hn, hg, hgl]
  · intro est hgl hest
    simp only [createSignedRawTransaction, hd, hn, hg, hgl, hest]

/-- Witness for C2: gasLimit 0 is used verbatim with two reads; absent
gasLimit triggers the estimate read. -/
theorem c2_gas_limit_resolution_witness :
    pW.gasLimit = some 0 ∧
    createSignedRawTransaction encW cryptoW pW nodeW =
      (signResult cryptoW pW 0 (encW.toPayload dW pW.functionArguments) 3 0,
       [.getTransactionCount pW.fromAddr, .getGasPrice]) ∧
    pWnoGas.gasLimit = none ∧
    createSignedRawTransaction encW cryptoW pWnoGas nodeW =
      (signResult cryptoW pWnoGas 0 (encW.toPayload dW pWnoGas.functionArguments) 3
         (Int.ofNat 21000),
       [.getTransactionCount pWnoGas.fromAddr, .getGasPrice,
        .estimateGas pWnoGas.contractAddress (encW.toPayload dW pWnoGas.functionArguments)]) :=
  ⟨rfl,
   (c2_gas_limit_resolution encW cryptoW pW nodeW dW 0 3 rfl rfl rfl).1 0 rfl,
   rfl,
   (c2_gas_limit_resolution encW cryptoW pWnoGas nodeW dW 0 3 rfl rfl rfl).2 21000 rfl rfl⟩

/-- C3: a functionName matching no descriptor fails with the
interface-lookup error (the `TypeError` thrown by `new SolidityFunction`)
in `createSignedRawTransaction`, `sendTransaction` and `call`, each with an
empty remote trace — before any network access. -/
theorem c3_interface_lookup_before_network (enc : AbiEncoder) (crypto : Crypto)
    (node : RemoteNode) (p : TxParams) (q : CallParams)
    (hp : lookupFunction p.abi p.functionName = none)
    (hq : lookupFunction q.abi q.functionName = none) :
    createSignedRawTransaction enc crypto p node = (.error .interfaceLookup, [])
    ∧ sendTransactionTyped enc crypto p node = (.error .interfaceLookup, [])
    ∧ callTyped enc q node = (.error .interfaceLookup, []) := by
  have h1 : createSignedRawTransaction enc crypto p node = (.error .interfaceLookup, []) := by
    simp only [createSignedRawTransaction, hp]
  refine ⟨h1, ?_, ?_⟩
  · simp only [sendTransactionTyped, h1]
  · simp only [callTyped, hq]

/-- Witness for C3 at a function name absent from the interface. -/
theorem c3_interface_lookup_before_network_witness :
    lookupFunction pPing.abi pPing.functionName = none ∧
    lookupFunction qMissing.abi qMissing.functionName = none ∧
    (createSignedRawTransaction encW cryptoW pPing nodeW = (.error .interfaceLookup, [])
     ∧ sendTransactionTyped encW cryptoW pPing nodeW = (.error .interfaceLookup, [])
     ∧ callTyped encW qMissing nodeW = (.error .interfaceLookup, [])) :=
  ⟨by decide, by decide,
   c3_interface_lookup_before_network encW cryptoW nodeW pPing qMissing (by decide) (by decide)⟩

/-- C5: an input that fails Joi validation rejects with exactly that
validation error, locally and synchronously, with an empty remote trace and
no later pipeline stage running — for both `sendTransaction` and `call`. -/
theorem c5_validation_before_network (enc : AbiEncoder) (crypto : Crypto)
    (node : RemoteNode) (ps : SendParamsJs) (qs : CallParamsJs) (e1 e2 : String)
    (h1 : joiValidateSend ps = some e1) (h2 : joiValidateCall qs = some e2) :
    sendTransactionJs enc crypto ps node = (.error (.validation e1), [])
    ∧ callJs enc qs node = (.error (.validation e2), []) := by
  constructor
  · simp only [sendTransactionJs, h1]
  · simp only [callJs, h2]

/-- Witness for C5: a missing required field and a wrong-shape field. -/
theorem c5_validation_before_network_witness :
    joiValidateSend psBadJs = some "privateKey" ∧
    joiValidateCall qsBadJs = some "abi" ∧
    (sendTransactionJs encW cryptoW psBadJs nodeW = (.error (.validation "privateKey"), [])
     ∧ callJs encW qsBadJs nodeW = (.error (.validation "abi"), [])) :=
  ⟨rfl, rfl,
   c5_validation_before_network encW cryptoW nodeW psBadJs qsBadJs _ _ rfl rfl⟩

/-- C6: each stage failure of `sendTransaction` (nonce read, gas-price
read, gas estimate, signing, broadcast) immediately fails the whole
operation with the originating error, with no retry — the trace is exactly
the prefix of round-trips up to the failing stage, each issued once — and
no partial result reaches the caller (the outcome is the bare error; a
signing throw inside a provider callback is modelled as failing the
operation). -/
theorem c6_first_error_propagation (enc : AbiEncoder) (crypto : Crypto) (p : TxParams)
    (node : RemoteNode) (d : AbiDescriptor)
    (hd : lookupFunction p.abi p.functionName = some d) :
    (∀ e, node.getTransactionCount p.fromAddr = .error e →
      sendTransactionTyped enc crypto p node =
        (.error (.remote e), [.getTransactionCount p.fromAddr]))
    ∧ (∀ nonce e, node.getTransactionCount p.fromAddr = .ok nonce →
        node.getGasPrice = .error e →
        sendTransactionTyped enc crypto p node =
          (.error (.remote e), [.getTransactionCount p.fromAddr, .getGasPrice]))
    ∧ (∀ nonce gasPrice e, node.getTransactionCount p.fromAddr = .ok nonce →
        node.getGasPrice = .ok gasPrice → p.gasLimit = none →
        node.estimateGas p.contractAddress (enc.toPayload d p.functionArguments) = .error e →
        sendTransactionTyped enc crypto p node =
          (.error (.remote e),
           [.getTransactionCount p.fromAddr, .getGasPrice,
            .estimateGas p.contractAddress (enc.toPayload d p.functionArguments)]))
    ∧ (∀ nonce gasPrice gl, node.getTransactionCount p.fromAddr = .ok nonce →
        node.getGasPrice = .ok gasPrice → p.gasLimit = some gl →
        sign_and_serialize crypto p nonce (enc.toPayload d p.functionArguments) gasPrice gl =
          .error .malformedKey →
        sendTransactionTyped enc crypto p node =
          (.error (.signing .malformedKey),
           [.getTransactionCount p.fromAddr, .getGasPrice]))
    ∧ (∀ nonce gasPrice gl ser e, node.getTransactionCount p.fromAddr = .ok nonce →
        node.getGasPrice = .ok gasPrice → p.gasLimit = some gl →
        sign_and_serialize crypto p nonce (enc.toPayload d p.functionArguments) gasPrice gl =
          .ok ser →
        node.sendRawTransaction (bytesToHexString ser) = .error e →
        sendTransactionTyped enc crypto p node =
          (.error (.remote e),
           [.getTransactionCount p.fromAddr, .getGasPrice,
            .sendRawTransaction (bytesToHexString ser)])) := by
  refine ⟨?_, ?_, ?_, ?_, ?_⟩
  · intro e he
    simp only [sendTransactionTyped, createSignedRawTransaction, hd, he]
  · intro nonce e hn he
    simp only [sendTransactionTyped, createSignedRawTransaction, hd, hn, he]
  · intro nonce gasPrice e hn hg hgl he
    simp only [sendTransactionTyped, createSignedRawTransaction, hd, hn, hg, hgl, he]
  · intro nonce gasPrice gl hn hg hgl hsig
    simp only [sendTransactionTyped, createSignedRawTransaction, hd, hn, hg, hgl,
      signResult, hsig]
  · intro nonce gasPrice gl ser e hn hg hgl hsig hbr
    simp only [sendTransactionTyped, createSignedRawTransaction, hd, hn, hg, hgl,
      signResult, hsig, hbr]
    rfl

/-- Witness for C6 at a node whose nonce read fails. -/
theorem c6_first_error_propagation_witness :
    lookupFunction pW.abi pW.functionName = some dW ∧
    nodeFailNonce.getTransactionCount pW.fromAddr = .error "boom" ∧
    sendTransactionTyped encW cryptoW pW nodeFailNonce =
      (.error (.remote "boom"), [.getTransactionCount pW.fromAddr]) :=
  ⟨by decide, rfl,
   (c6_first_error_propagation encW cryptoW pW nodeFailNonce dW (by decide)).1 "boom" rfl⟩

/-- C7: a transaction assembled with `value` unspecified is identical to
the one assembled with an explicit `value = 0` (lines 130-132 default the
field before assembly). -/
theorem c7_value_default (enc : AbiEncoder) (crypto : Crypto) (node : RemoteNode)
    (p : TxParams) :
    createSignedRawTransaction enc crypto { p with value := none } node =
      createSignedRawTransaction enc crypto { p with value := some 0 } node := rfl

/-- C4: signing and serialization are deterministic in the encoded field
layout — the signing pre-image is a function of nonce, gasPrice, gasLimit,
to, value and data alone — and decoding the serialized signed transaction
recovers all nine field buffers; the first six are the unsigned fields, and
the numeric buffers decode back to the exact nonce, gasPrice, gasLimit and
value, with `to` and `data` recovered verbatim. -/
theorem c4_deterministic_roundtrip :
    (∀ (p1 p2 : TxParams) (nonce : Nat) (payload : List Nat) (gasPrice : Nat) (gl : Int),
       p1.contractAddress = p2.contractAddress → p1.value = p2.value →
       signingPreImage p1 nonce payload gasPrice gl =
         signingPreImage p2 nonce payload gasPrice gl)
    ∧ (∀ (crypto : Crypto) (p : TxParams) (nonce : Nat) (payload : List Nat)
         (gasPrice : Nat) (glN vN : Nat) (ser : List Nat),
        p.value = some (Int.ofNat vN) →
        (∀ b ∈ payload, b < 256) →
        rlpSizesOk (signedFieldBuffers crypto p nonce payload gasPrice (Int.ofNat glN)) =
          true →
        sign_and_serialize crypto p nonce payload gasPrice (Int.ofNat glN) = .ok ser →
        rlpDecodeList ser =
            some (signedFieldBuffers crypto p nonce payload gasPrice (Int.ofNat glN))
          ∧ (signedFieldBuffers crypto p nonce payload gasPrice (Int.ofNat glN)).take 6 =
              [specMinBe nonce, specMinBe gasPrice, specMinBe glN,
               toBufferStr p.contractAddress, specMinBe vN, payload]
          ∧ bytesToNat (specMinBe nonce) = nonce
          ∧ bytesToNat (specMinBe gasPrice) = gasPrice
          ∧ bytesToNat (specMinBe glN) = glN
          ∧ bytesToNat (specMinBe vN) = vN) := by
  constructor
  · intro p1 p2 nonce payload gasPrice gl hca hv
    unfold signingPreImage txFieldBuffers
    rw [hca, hv]
  · intro crypto p nonce payload gasPrice glN vN ser hv hpb hsz hser
    have hkey : keyOk (signingKeyBytes p) = true := by
      rcases hq : keyOk (signingKeyBytes p) with _ | _
      · unfold sign_and_serialize at hser
        rw [hq] at hser
        simp at hser
      · rfl
    have hserEq :
        ser = rlpEncodeList (signedFieldBuffers crypto p nonce payload gasPrice
          (Int.ofNat glN)) := by
      unfold sign_and_serialize at hser
      rw [hkey] at hser
      simp at hser
      exact hser.symm
    subst hserEq
    have hbytes : ∀ i ∈ signedFieldBuffers crypto p nonce payload gasPrice (Int.ofNat glN),
        ∀ x ∈ i, x < 256 := by
      intro i hi
      simp only [signedFieldBuffers, txFieldBuffers, List.mem_append, List.mem_cons,
        List.not_mem_nil, or_false] at hi
      rcases hi with ((h | h | h | h | h | h) | h | h | h) <;> subst h
      · exact fieldBytesI_lt _
      · exact fieldBytesI_lt _
      · exact fieldBytesI_lt _
      · exact toBufferStr_lt _
      · exact fieldBytesI_lt _
      · exact hpb
      · exact fieldBytesI_lt _
      · intro x hx
        exact crypto.r_bytes _ _ x (stripZeros_mem _ x hx)
      · intro x hx
        exact crypto.s_bytes _ _ x (stripZeros_mem _ x hx)
    refine ⟨rlpDecodeList_encode _ hbytes hsz, ?_, bytesToNat_specMinBe _,
      bytesToNat_specMinBe _, bytesToNat_specMinBe _, bytesToNat_specMinBe _⟩
    have h6 : (txFieldBuffers p nonce payload gasPrice (Int.ofNat glN)).length = 6 := rfl
    unfold signedFieldBuffers
    rw [← h6, List.take_left]
    unfold txFieldBuffers
    rw [hv]
    simp only [Option.getD_some]
    rw [fieldBytesN_eq, fieldBytesN_eq, fieldBytesI_ofNat, fieldBytesI_ofNat]

/-- Witness for C4 at a concrete signed transaction. -/
theorem c4_deterministic_roundtrip_witness :
    pW.value = some (Int.ofNat 1) ∧
    (∀ b ∈ [1, 2, 3, 4], b < 256) ∧
    rlpSizesOk (signedFieldBuffers cryptoW pW 0 [1, 2, 3, 4] 3 (Int.ofNat 0)) = true ∧
    sign_and_serialize cryptoW pW 0 [1, 2, 3, 4] 3 (Int.ofNat 0) =
      .ok (rlpEncodeList (signedFieldBuffers cryptoW pW 0 [1, 2, 3, 4] 3 (Int.ofNat 0))) ∧
    rlpDecodeList (rlpEncodeList (signedFieldBuffers cryptoW pW 0 [1, 2, 3, 4] 3
        (Int.ofNat 0))) =
      some (signedFieldBuffers cryptoW pW 0 [1, 2, 3, 4] 3 (Int.ofNat 0)) :=
  ⟨rfl, by decide, by decide, rfl,
   ((c4_deterministic_roundtrip).2 cryptoW pW 0 [1, 2, 3, 4] 3 0 1 _ rfl (by decide)
     (by decide) rfl).1⟩

/-- C8: descriptors are looked up by exact name match; when one or more
descriptors share the requested name the lookup resolves to the first
match in array order, and with no match it fails, in which case no
descriptor in the interface bears the name; the encoded payload is then
built from the resolved descriptor (visible in the `eth_call` round-trip
arguments). -/
theorem c8_first_match_lookup :
    (∀ (abi : List AbiDescriptor) (fn : String) (d : AbiDescriptor),
       lookupFunction abi fn = some d →
         d.name = some fn ∧
         ∃ i : Nat, abi[i]? = some d ∧
           ∀ j : Nat, j < i → ∀ e : AbiDescriptor, abi[j]? = some e → e.name ≠ some fn)
    ∧ (∀ (abi : List AbiDescriptor) (fn : String),
        lookupFunction abi fn = none → ∀ d ∈ abi, d.name ≠ some fn)
    ∧ (∀ (enc : AbiEncoder) (q : CallParams) (node : RemoteNode) (d : AbiDescriptor),
        lookupFunction q.abi q.functionName = some d →
        (callTyped enc q node).2 =
          [.ethCall q.contractAddress (enc.toPayload d q.functionArguments)]) := by
  have hchar : ∀ (abi : List AbiDescriptor) (fn : String),
      (∀ d, lookupFunction abi fn = some d →
        d.name = some fn ∧
        ∃ i : Nat, abi[i]? = some d ∧
          ∀ j : Nat, j < i → ∀ e : AbiDescriptor, abi[j]? = some e → e.name ≠ some fn)
      ∧ (lookupFunction abi fn = none → ∀ d ∈ abi, d.name ≠ some fn) := by
    intro abi fn
    induction abi with
    | nil =>
      constructor
      · intro d hd
        simp [lookupFunction] at hd
      · intro _ d hd
        simp at hd
    | cons a rest ih =>
      constructor
      · intro d hd
        rcases hpa : (a.name == some fn) with _ | _
        · simp only [lookupFunction, List.find?_cons, hpa] at hd
          obtain ⟨hname, i, hi, hfirst⟩ := ih.1 d hd
          refine ⟨hname, i + 1, by simpa using hi, ?_⟩
          intro j hj e hje
          rcases j with _ | k
          · simp at hje
            subst hje
            intro hcontra
            rw [hcontra] at hpa
            simp at hpa
          · simp only [List.getElem?_cons_succ] at hje
            exact hfirst k (by omega) e hje
        · simp only [lookupFunction, List.find?_cons, hpa] at hd
          have hda : a = d := by simpa using hd
          subst hda
          refine ⟨by simpa using hpa, 0, by simp, ?_⟩
          intro j hj
          omega
      · intro hnone d hdmem
        rw [lookupFunction] at hnone
        have := List.find?_eq_none.1 hnone d hdmem
        simpa using this
  refine ⟨fun abi fn => (hchar abi fn).1, fun abi fn => (hchar abi fn).2, ?_⟩
  intro enc q node d hd
  simp only [callTyped, hd]
  rcases node.ethCall q.contractAddress (enc.toPayload d q.functionArguments) with e | r <;>
    rfl

/-- Witness for C8 on an interface with two descriptors named `f`: the
lookup resolves to the first and the payload round-trip uses it. -/
theorem c8_first_match_lookup_witness :
    (abiOverloaded.filter (fun d => d.name == some "f")).length = 2 ∧
    abiOverloaded[0]? = some { name := some "f", inputs := ["uint256"] } ∧
    lookupFunction qOver.abi qOver.functionName =
      some { name := some "f", inputs := ["uint256"] } ∧
    (callTyped encW qOver nodeW).2 =
      [.ethCall qOver.contractAddress
        (encW.toPayload { name := some "f", inputs := ["uint256"] } qOver.functionArguments)] :=
  ⟨by decide, by decide, by decide,
   (c8_first_match_lookup).2.2 encW qOver nodeW { name := some "f", inputs := ["uint256"] }
     (by decide)⟩

/-- C9 counterexample: calling `createSignedRawTransaction` with a params
object whose `value` is unspecified mutates the caller's object (lines
130-132 set `value` to 0 in place), so the object is not unchanged as the
claim states. -/
theorem c9_counterexample_mutation :
    (csrtOnHeap [objW] 0)[0]? ≠ some objW ∧
    (csrtOnHeap [objW] 0)[0]? = some { objW with value := some 0 } := by
  constructor <;> decide

/-- C9 amended: `sendTransaction` leaves the caller's params object
unchanged (it hands a fresh `_.omit`/`_.assign` copy to the pipeline);
`createSignedRawTransaction` itself leaves a params object with `value`
supplied unchanged, and mutates one with `value` unspecified exactly by
setting `value` to 0. -/
theorem c9_amended_mutation (h : Heap) (i : Nat) (o : ParamsObj)
    (hg : h[i]? = some o) :
    (sendTransactionOnHeap h i)[i]? = some o
    ∧ (o.value ≠ none → csrtOnHeap h i = h)
    ∧ (o.value = none → (csrtOnHeap h i)[i]? = some { o with value := some 0 }) := by
  have hlt : i < h.length := (List.getElem?_eq_some.1 hg).1
  refine ⟨?_, ?_, ?_⟩
  · simp only [sendTransactionOnHeap, hg, csrtOnHeap, List.getElem?_concat_length]
    rw [List.getElem?_set_ne (by omega), List.getElem?_append_left hlt]
    exact hg
  · intro hv
    simp only [csrtOnHeap, hg, csrtDefaultValueMutation, if_neg hv]
    exact list_set_self h i o hg
  · intro hv
    simp only [csrtOnHeap, hg, csrtDefaultValueMutation, if_pos hv]
    exact List.getElem?_set_eq_of_lt _ (by simpa using hlt)

/-- Witness for the amended C9 on a one-object heap. -/
theorem c9_amended_mutation_witness :
    ([objW] : Heap)[0]? = some objW ∧
    ((sendTransactionOnHeap [objW] 0)[0]? = some objW
     ∧ (objW.value ≠ none → csrtOnHeap [objW] 0 = [objW])
     ∧ (objW.value = none → (csrtOnHeap [objW] 0)[0]? = some { objW with value := some 0 })) :=
  ⟨rfl, c9_amended_mutation [objW] 0 objW rfl⟩

/-- C10 counterexample: a malformed private key (66 characters, not valid
hex) whose Node hex decoding truncates to 32 valid bytes signs
successfully and produces a serialized transaction, contradicting the
claim that every malformed key fails with a signing error. -/
theorem c10_counterexample_truncated_key :
    keyBad.data.all (fun c => (hexVal c).isSome) = false ∧
    keyBad.length ≠ 64 ∧
    sign_and_serialize cryptoW pBadHex 0 [] 0 0 =
      .ok (rlpEncodeList (signedFieldBuffers cryptoW pBadHex 0 [] 0 0)) ∧
    (createSignedRawTransaction encW cryptoW pBadHex nodeW).1.isOk = true := by
  refine ⟨by decide, by decide, ?_, by decide⟩
  have hk : keyOk (signingKeyBytes pBadHex) = true := by decide
  simp only [sign_and_serialize, hk, if_true]

/-- C10 amended: signing fails with the signing error exactly when the
hex-decoded private key (Node's decoder truncates at the first invalid
character and drops a lone trailing digit) is not a valid 32-byte
secp256k1 scalar; the enclosing pipeline then fails with that error and no
serialized transaction is produced. -/
theorem c10_amended_key_validation (enc : AbiEncoder) (crypto : Crypto) (p : TxParams)
    (node : RemoteNode) (d : AbiDescriptor) (nonce gasPrice : Nat) (gl : Int)
    (hk : keyOk (signingKeyBytes p) = false)
    (hd : lookupFunction p.abi p.functionName = some d)
    (hn : node.getTransactionCount p.fromAddr = .ok nonce)
    (hg : node.getGasPrice = .ok gasPrice)
    (hgl : p.gasLimit = some gl) :
    (∀ payload gp2 gl2 n2,
      sign_and_serialize crypto p n2 payload gp2 gl2 = .error .malformedKey)
    ∧ createSignedRawTransaction enc crypto p node =
        (.error (.signing .malformedKey),
         [.getTransactionCount p.fromAddr, .getGasPrice]) := by
  have hsign : ∀ payload gp2 gl2 n2,
      sign_and_serialize crypto p n2 payload gp2 gl2 = .error .malformedKey := by
    intro payload gp2 gl2 n2
    simp [sign_and_serialize, hk]
  refine ⟨hsign, ?_⟩
  simp only [createSignedRawTransaction, hd, hn, hg, hgl, signResult, hsign]

/-- Witness for the amended C10 with a too-short private key. -/
theorem c10_amended_key_validation_witness :
    keyOk (signingKeyBytes pShortKey) = false ∧
    pShortKey.gasLimit = some 0 ∧
    sign_and_serialize cryptoW pShortKey 0 [] 0 0 = .error .malformedKey ∧
    createSignedRawTransaction encW cryptoW pShortKey nodeW =
      (.error (.signing .malformedKey),
       [.getTransactionCount pShortKey.fromAddr, .getGasPrice]) := by
  have h := c10_amended_key_validation encW cryptoW pShortKey nodeW dW 0 3 0
    (by decide) (by decide) rfl rfl rfl
  exact ⟨by decide, rfl, h.1 [] 0 0 0, h.2⟩

end EthereumRemote
